import Mathlib

/-!
Verification development for the loader subsystem of flask-filealchemy.

The definitions below are a shallow embedding of `flask_filealchemy/common.py`
and `flask_filealchemy/loaders.py`.  YAML documents are modelled by the `Yaml`
inductive; Python dicts by insertion-ordered association lists with the exact
set-semantics of CPython dicts (replace in place when the key is present,
append otherwise); the filesystem facts a loader observes (`Path.glob('**/*')`
results, `_all.yml` existence) by the `TableDirFS` structure.  Generators are
modelled by the list of records yielded before the generator either finishes
(`none`) or raises (`some error`).
-/

set_option autoImplicit false

/-- A YAML value after `YAML(typ='safe').load`: `null`, booleans, integers,
strings, sequences (Python `list`) and mappings (Python `dict`, insertion
ordered). -/
inductive Yaml where
  | null : Yaml
  | bool (b : Bool) : Yaml
  | int (n : Int) : Yaml
  | str (s : String) : Yaml
  | seq (xs : List Yaml) : Yaml
  | map (kvs : List (String × Yaml)) : Yaml

/-- A Python dict with string keys and YAML values, insertion ordered. -/
abbrev Dict := List (String × Yaml)

/-- Python `d[k]` lookup / `k in d`: the first (and in a real dict, only)
binding of `k`. -/
def dictGet : Dict → String → Option Yaml
  | [], _ => none
  | (k', v) :: rest, k => if k' == k then some v else dictGet rest k

/-- Python `d[k] = v`: replace the binding in place when the key is present,
append a new binding otherwise. -/
def dictSet : Dict → String → Yaml → Dict
  | [], k, v => [(k, v)]
  | (k', v') :: rest, k, v =>
    if k' == k then (k, v) :: rest else (k', v') :: dictSet rest k v

/-- Python `d.update(other)`: assign each binding of `other` into `d`, in
order. -/
def dictUpdate (d other : Dict) : Dict :=
  other.foldl (fun acc kv => dictSet acc kv.1 kv.2) d

/-- Python `isinstance(v, Mapping)`. -/
def Yaml.isMapping : Yaml → Bool
  | .map _ => true
  | _ => false

/-- Python `isinstance(v, list)`. -/
def Yaml.isList : Yaml → Bool
  | .seq _ => true
  | _ => false

/-- Python `isinstance(v, str)`. -/
def Yaml.isStr : Yaml → Bool
  | .str _ => true
  | _ => false

/-- Python `isinstance(v, collections.abc.Sequence)` together with iteration over the
sequence: Python lists iterate over their elements, and Python strings are
registered `Sequence` instances whose elements are their one-character
substrings.  Mappings and scalars are not `Sequence` instances.  (Binary
`bytes` values are not modelled.) -/
def Yaml.pySeqElems : Yaml → Option (List Yaml)
  | .seq xs => some xs
  | .str s => some (s.toList.map fun c => Yaml.str (String.mk [c]))
  | _ => none

/-- Python iteration `for x in v` over the shapes `parse_yaml_file` can
return: lists iterate over elements, strings over characters, dicts over their
keys. -/
def Yaml.pyIter : Yaml → Option (List Yaml)
  | .seq xs => some xs
  | .str s => some (s.toList.map fun c => Yaml.str (String.mk [c]))
  | .map kvs => some (kvs.map fun kv => Yaml.str kv.1)
  | _ => none

/-- The two exception messages raised by `parse_yaml_file` in `common.py`:
`could not open ...` (from `IOError`) and `... contains invalid YAML` (from
the shape-checking `ValueError`); the spec calls them `Unreadable` and
`InvalidFormat`. -/
inductive LoadError where
  | unreadable : LoadError
  | invalidYAML : LoadError
deriving DecidableEq

/-- The file the parser reads: whether opening/reading it raises `IOError`,
and the value `YAML(typ='safe').load` produces from its text. -/
structure FileData where
  readable : Bool
  content : Yaml

/-- The body of the shape check in `parse_yaml_file`:
`isinstance(values, Sequence)` followed by a per-element `Mapping` check,
`elif not isinstance(values, Mapping): raise ValueError()`. -/
def checkShapePy (values : Yaml) : Bool :=
  match values.pySeqElems with
  | some elems => elems.all Yaml.isMapping
  | none => values.isMapping

/-- The function `parse_yaml_file` from `common.py`: fail when the file is unreadable,
fail when the parsed top-level value flunks the shape check, otherwise return
the parsed value unchanged. -/
def parse_yaml_file (f : FileData) : Except LoadError Yaml :=
  if f.readable then
    if checkShapePy f.content then .ok f.content else .error .invalidYAML
  else .error .unreadable

/-- The `ColumnMapping` enum from `common.py`. -/
inductive ColumnMapping where
  | FILE_NAME : ColumnMapping
  | FOLDER_NAME : ColumnMapping
deriving DecidableEq

/-- One `(self_key, foreign_key)` pair of
`zip(const.column_keys, const.elements)`: the local column name, the name of
the referenced table and the name of the referenced column
(`foreign_key.column`). -/
structure FKPair where
  localCol : String
  refTable : String
  refCol : String
deriving DecidableEq

/-- A SQLAlchemy `Table` as the loaders observe it: `table.name`,
`table.columns.keys()` (ordered) and `table.foreign_key_constraints`, each
constraint already zipped into its list of pairs. -/
structure TableSchema where
  name : String
  columns : List String
  fkConstraints : List (List FKPair)

/-- Models `table.metadata.tables`: the name-keyed collection of all known tables. -/
structure SchemaMeta where
  tables : List TableSchema

/-- Python `k in metadata.tables.keys()` / `metadata.tables[k]`. -/
def SchemaMeta.find (m : SchemaMeta) (k : String) : Option TableSchema :=
  m.tables.find? fun t => t.name == k

/-- The `FILEALCHEMY_MODELS` configuration as held by the extension: table name to
(model class, column-mapping dict); here a model class is identified by its
name. -/
abbrev ModelMap := List (String × String × List (String × ColumnMapping))

/-- Python `self.model_map[k][0]`, as an `Option` to record the possible
`KeyError`. -/
def lookupModel (mm : ModelMap) (k : String) : Option String :=
  (mm.find? fun kv => kv.1 == k).map fun kv => kv.2.1

/-- CPython `PurePath.stem`: the final path component without its suffix; the
suffix is stripped only when the last dot sits strictly inside the name. -/
def pathStem (name : String) : String :=
  let cs := name.toList
  match rfindDot cs with
  | some i => if 0 < i && i < cs.length - 1 then String.mk (cs.take i) else name
  | none => name
where
  rfindDot : List Char → Option Nat
    | [] => none
    | c :: cs =>
      match rfindDot cs with
      | some i => some (i + 1)
      | none => if c == '.' then some 0 else none

/-- One result of `data_path.glob('**/*')`: whether it `is_file()`, its final
component `name`, its parent directory's `name`, and (for regular files) what
opening and YAML-loading it produces. -/
structure DirEntry where
  is_file : Bool
  name : String
  parentName : String
  data : FileData

/-- What the two loaders observe of a table's data directory
`data_dir/table.name`: whether the directory exists, the entries
`glob('**/*')` yields (in traversal order; CPython's recursive glob yields
nothing for a nonexistent directory), and whether `_all.yml` exists directly
underneath it as a regular file. -/
structure TableDirFS where
  dirPresent : Bool
  globEntries : List DirEntry
  allYmlIsFile : Bool

/-- Filesystem coherence: a nonexistent directory has no glob results and no
`_all.yml` file. -/
def TableDirFS.wf (fs : TableDirFS) : Prop :=
  fs.dirPresent = false → fs.globEntries = [] ∧ fs.allYmlIsFile = false

/-- The tuple `YAMLDirectoryLoader.extensions`. -/
def YAMLDirectoryLoader.extensions : List String :=
  [".yml", ".yaml", ".YML", ".YAML"]

/-- Auxiliary for `strEndsWithPy`: does the first char list start with the
second one? -/
def charsStartWith : List Char → List Char → Bool
  | _, [] => true
  | [], _ :: _ => false
  | c :: cs, d :: ds => c == d && charsStartWith cs ds

/-- Python `name.endswith(ext)` over the characters of the two strings. -/
def strEndsWithPy (s suffix : String) : Bool :=
  charsStartWith s.toList.reverse suffix.toList.reverse

/-- Models `YAMLSingleFileLoader.validate`, as the truth value of "does not raise
`InvalidLoaderError`": `_all.yml` exists under the table directory and is a
regular file. -/
def YAMLSingleFileLoader.validate (fs : TableDirFS) : Bool :=
  fs.allYmlIsFile

/-- Models `YAMLDirectoryLoader.validate`, as the truth value of "does not raise
`InvalidLoaderError`": every regular file yielded by the recursive glob has a
name ending in one of the recognized extensions. -/
def YAMLDirectoryLoader.validate (fs : TableDirFS) : Bool :=
  fs.globEntries.all fun e =>
    !e.is_file || YAMLDirectoryLoader.extensions.any fun ext => strEndsWithPy e.name ext

/-- The two loader classes tried by `loader_for`, in order. -/
inductive LoaderKind where
  | singleFile : LoaderKind
  | directory : LoaderKind
deriving DecidableEq

/-- The function `loader_for`: construct each loader class in order, catching
`InvalidLoaderError` from its `validate`; return the first that constructs,
and fall off the end (returning `None`) when neither does. -/
def loader_for (fs : TableDirFS) : Option LoaderKind :=
  if YAMLSingleFileLoader.validate fs then some .singleFile
  else if YAMLDirectoryLoader.validate fs then some .directory
  else none

/-- The exceptions a loader's `extract_records` generator can raise: a
`LoadError` propagated from `parse_yaml_file`, a `KeyError` (from
`kwargs[foreign_key]` or `self.model_map[k]`), an `AttributeError` (calling
`.items`/`.get`/`.update` on a non-dict), or a `TypeError`. -/
inductive ExtractError where
  | loadError (e : LoadError) : ExtractError
  | keyError (k : String) : ExtractError
  | attrError : ExtractError
  | typeError : ExtractError
deriving DecidableEq

/-- A constructed row: the model class it instantiates (by name) and the
keyword arguments it was built from. -/
structure Record where
  model : String
  kwargs : Dict

/-- Python `json.dumps(value, indent=4)`, abstracted to a fixed deterministic
serialization of the compound value (the loaders only ever compare and store
the resulting string). -/
def jsonDumps : Yaml → String
  | .null => "null"
  | .bool b => if b then "true" else "false"
  | .int n => toString n
  | .str s => "\"" ++ s ++ "\""
  | .seq xs => "[" ++ jsonDumpsSeq xs ++ "]"
  | .map kvs => "\x7b" ++ jsonDumpsMap kvs ++ "\x7d"
where
  jsonDumpsSeq : List Yaml → String
    | [] => ""
    | [x] => jsonDumps x
    | x :: xs => jsonDumps x ++ ", " ++ jsonDumpsSeq xs
  jsonDumpsMap : List (String × Yaml) → String
    | [] => ""
    | [(k, v)] => "\"" ++ k ++ "\": " ++ jsonDumps v
    | (k, v) :: kvs => "\"" ++ k ++ "\": " ++ jsonDumps v ++ ", " ++ jsonDumpsMap kvs

/-- The compound-value step of the directory loader's column branch:
`if isinstance(value, list) or isinstance(value, dict):
value = json.dumps(value, indent=4)`. -/
def canonicalize (v : Yaml) : Yaml :=
  match v with
  | .seq _ => Yaml.str (jsonDumps v)
  | .map _ => Yaml.str (jsonDumps v)
  | _ => v

/-- Everything `YAMLDirectoryLoader.extract_records` closes over: the bound
table, its metadata, the two default maps, and the `model` argument (the
model class for the parent table, by name). -/
structure DirLoaderCtx where
  table : TableSchema
  meta : SchemaMeta
  column_map : List (String × ColumnMapping)
  model_map : ModelMap
  parentModel : String

/-- The value a mapping rule derives for a directory entry: `entry.stem` for
`FILE_NAME`, `entry.parent.name` for `FOLDER_NAME`. -/
def mappedValue (r : ColumnMapping) (e : DirEntry) : Yaml :=
  match r with
  | .FILE_NAME => Yaml.str (pathStem e.name)
  | .FOLDER_NAME => Yaml.str e.parentName

/-- The first loop of `YAMLDirectoryLoader.extract_records`
(`for k, v in self.column_map.items(): kwargs[k] = ...`), with the
accumulated `kwargs` made explicit.  (The Python `else` arm raising
`ValueError` is unreachable for values of the `ColumnMapping` enum.) -/
def applyColumnMapAux (e : DirEntry) : List (String × ColumnMapping) → Dict → Dict
  | [], d => d
  | (k, r) :: rest, d => applyColumnMapAux e rest (dictSet d k (mappedValue r e))

/-- The `kwargs` dict after the mapping-rule loop, starting from `{}`. -/
def applyColumnMap (cm : List (String × ColumnMapping)) (e : DirEntry) : Dict :=
  applyColumnMapAux e cm []

/-- The inner pair loop over one foreign-key constraint:
`for self_key, foreign_key in zip(const.column_keys, const.elements):
if foreign_key.references(self.table):
foreign_kwargs[self_key] = kwargs[foreign_key.column.name]`, where the
`kwargs` subscript can raise `KeyError`. -/
def foreignForConstraint (tn : String) : List FKPair → Dict → Dict → Except ExtractError Dict
  | [], _, fk => .ok fk
  | p :: rest, kwargs, fk =>
    if p.refTable == tn then
      match dictGet kwargs p.refCol with
      | some v => foreignForConstraint tn rest kwargs (dictSet fk p.localCol v)
      | none => .error (.keyError p.refCol)
    else foreignForConstraint tn rest kwargs fk

/-- The outer loop `for const in sub_table.foreign_key_constraints`, building
`foreign_kwargs` starting from `{}`. -/
def buildForeignKwargsAux (tn : String) : List (List FKPair) → Dict → Dict → Except ExtractError Dict
  | [], _, fk => .ok fk
  | c :: rest, kwargs, fk =>
    match foreignForConstraint tn c kwargs fk with
    | .ok fk' => buildForeignKwargsAux tn rest kwargs fk'
    | .error e => .error e

/-- Builds `foreign_kwargs` for one embedded child key, starting from `{}`. -/
def buildForeignKwargs (tn : String) (cs : List (List FKPair)) (kwargs : Dict) : Except ExtractError Dict :=
  buildForeignKwargsAux tn cs kwargs []

/-- The child loop `for sub_kwargs in value: sub_kwargs.update(foreign_kwargs);
yield self.model_map[k][0](**sub_kwargs)`: a non-dict element raises
`AttributeError` at the `update` call, a key missing from `model_map` raises
`KeyError`; records yielded before the exception are kept. -/
def childRecordsLoop (mm : ModelMap) (k : String) : List Yaml → Dict → List Record × Option ExtractError
  | [], _ => ([], none)
  | Yaml.map kvs :: rest, fk =>
    match lookupModel mm k with
    | some m =>
      let res := childRecordsLoop mm k rest fk
      (Record.mk m (dictUpdate kvs fk) :: res.1, res.2)
    | none => ([], some (.keyError k))
  | _ :: _, _ => ([], some .attrError)

/-- The whole nested-expansion branch for one key `k` whose value is an
embedded sequence: build `foreign_kwargs` from the constraints of the sibling
table, then yield one child record per element. -/
def childRecordsForKey (ctx : DirLoaderCtx) (k : String) (subTable : TableSchema)
    (elems : List Yaml) (kwargs : Dict) : List Record × Option ExtractError :=
  match buildForeignKwargs ctx.table.name subTable.fkConstraints kwargs with
  | .ok fk => childRecordsLoop ctx.model_map k elems fk
  | .error e => ([], some e)

/-- The second loop of `YAMLDirectoryLoader.extract_records`
(`for k, value in values.items(): ...`): a key naming a declared column
assigns its (canonicalized) value into `kwargs`; otherwise, when `model_map`
is non-empty, the key names a known table and the value is a list, the nested
expansion yields child records; every other key is ignored.  Returns the
records yielded so far, the final `kwargs`, and the exception if one was
raised. -/
def processItems (ctx : DirLoaderCtx) : List (String × Yaml) → Dict → List Record × Dict × Option ExtractError
  | [], kwargs => ([], kwargs, none)
  | (k, value) :: rest, kwargs =>
    if ctx.table.columns.contains k then
      processItems ctx rest (dictSet kwargs k (canonicalize value))
    else
      match ctx.meta.find k, value with
      | some subTable, Yaml.seq elems =>
        if ctx.model_map.isEmpty then processItems ctx rest kwargs
        else
          match childRecordsForKey ctx k subTable elems kwargs with
          | (children, some e) => (children, kwargs, some e)
          | (children, none) =>
            let res := processItems ctx rest kwargs
            (children ++ res.1, res.2.1, res.2.2)
      | _, _ => processItems ctx rest kwargs

/-- The body of `YAMLDirectoryLoader.extract_records` for one regular file:
parse it, run the mapping-rule loop, run the items loop (a parsed value that
is not a dict raises `AttributeError` at `values.items()`), and finally yield
the parent record `model(**kwargs)`. -/
def extractEntry (ctx : DirLoaderCtx) (entry : DirEntry) : List Record × Option ExtractError :=
  match parse_yaml_file entry.data with
  | .error e => ([], some (.loadError e))
  | .ok values =>
    match values with
    | .map kvs =>
      match processItems ctx kvs (applyColumnMap ctx.column_map entry) with
      | (rs, _, some e) => (rs, some e)
      | (rs, kw, none) => (rs ++ [Record.mk ctx.parentModel kw], none)
    | _ => ([], some .attrError)

/-- The glob loop of `YAMLDirectoryLoader.extract_records`: skip non-files,
extract from each regular file in traversal order; an exception ends the
generator, keeping the records yielded before it. -/
def extractEntries (ctx : DirLoaderCtx) : List DirEntry → List Record × Option ExtractError
  | [] => ([], none)
  | e :: rest =>
    if e.is_file then
      match extractEntry ctx e with
      | (recs, some err) => (recs, some err)
      | (recs, none) =>
        let res := extractEntries ctx rest
        (recs ++ res.1, res.2)
    else extractEntries ctx rest

/-- Models `YAMLDirectoryLoader.extract_records`. -/
def YAMLDirectoryLoader.extract_records (ctx : DirLoaderCtx) (fs : TableDirFS) : List Record × Option ExtractError :=
  extractEntries ctx fs.globEntries

/-- The dict comprehension of `YAMLSingleFileLoader.extract_records`:
`kwargs = (column.name: value.get(column.name) for column in
self.table.columns)`, with `dict.get` returning `None` for a missing key. -/
def aggBuild (kvs : Dict) : List String → Dict → Dict
  | [], d => d
  | c :: rest, d => aggBuild kvs rest (dictSet d c ((dictGet kvs c).getD Yaml.null))

/-- One aggregate record `model(**kwargs)`. -/
def aggRecord (table : TableSchema) (model : String) (kvs : Dict) : Record :=
  Record.mk model (aggBuild kvs table.columns [])

/-- The `for value in values` loop of `YAMLSingleFileLoader.extract_records`:
each iterated value must be a dict (anything else raises `AttributeError` at
`value.get`); records yielded before an exception are kept. -/
def aggLoop (table : TableSchema) (model : String) : List Yaml → List Record × Option ExtractError
  | [] => ([], none)
  | Yaml.map kvs :: rest =>
    let res := aggLoop table model rest
    (aggRecord table model kvs :: res.1, res.2)
  | _ :: _ => ([], some .attrError)

/-- Models `YAMLSingleFileLoader.extract_records`: parse `_all.yml` and yield one
record per iterated value. -/
def YAMLSingleFileLoader.extract_records (table : TableSchema) (model : String)
    (file : FileData) : List Record × Option ExtractError :=
  match parse_yaml_file file with
  | .error e => ([], some (.loadError e))
  | .ok values =>
    match values.pyIter with
    | some items => aggLoop table model items
    | none => ([], some .typeError)

/-- The document-shape predicate as the spec words it: the top-level value is
either a single mapping or a sequence every element of which is a mapping (a
YAML sequence, not a Python `Sequence`).  Declared for comparison with
`checkShapePy`, which is translated from the source. -/
def specShapeOk : Yaml → Bool
  | .map _ => true
  | .seq xs => xs.all Yaml.isMapping
  | _ => false

/-! ### Basic dictionary lemmas -/

theorem dictGet_set (d : Dict) (k x : String) (v : Yaml) :
    dictGet (dictSet d k v) x = if k == x then some v else dictGet d x := by
  induction d with
  | nil => simp [dictGet, dictSet]
  | cons hd tl ih =>
    obtain ⟨a, b⟩ := hd
    simp only [dictSet]
    by_cases hak : a = k
    · subst hak
      simp only [beq_self_eq_true, if_true, dictGet]
      by_cases hx : a = x <;> simp [hx]
    · have hak' : (a == k) = false := by simp [hak]
      simp only [hak', Bool.false_eq_true, if_false, dictGet, ih]
      by_cases hx : a = x
      · subst hx
        have : (k == a) = false := by
          simp only [beq_eq_false_iff_ne, ne_eq]
          exact fun e => hak e.symm
        simp [this]
      · simp [hx]

theorem dictGet_set_self (d : Dict) (k : String) (v : Yaml) :
    dictGet (dictSet d k v) k = some v := by
  simp [dictGet_set]

theorem dictGet_set_ne (d : Dict) (k x : String) (v : Yaml) (h : k ≠ x) :
    dictGet (dictSet d k v) x = dictGet d x := by
  simp [dictGet_set, h]

theorem mem_keys_dictSet (d : Dict) (k x : String) (v : Yaml)
    (h : x ∈ (dictSet d k v).map Prod.fst) : x ∈ d.map Prod.fst ∨ x = k := by
  induction d with
  | nil =>
    simp only [dictSet, List.map_cons, List.map_nil, List.mem_singleton] at h
    exact Or.inr h
  | cons hd tl ih =>
    obtain ⟨a, b⟩ := hd
    simp only [dictSet] at h
    by_cases hak : a = k
    · subst hak
      simp only [beq_self_eq_true, if_true, List.map_cons, List.mem_cons] at h
      rcases h with h | h
      · exact Or.inr h
      · exact Or.inl (by simp [h])
    · have hak' : (a == k) = false := by simp [hak]
      simp only [hak', Bool.false_eq_true, if_false, List.map_cons, List.mem_cons] at h
      rcases h with h | h
      · exact Or.inl (by simp [h])
      · rcases ih h with h' | h'
        · exact Or.inl (List.mem_cons_of_mem _ h')
        · exact Or.inr h'

theorem nodup_keys_dictSet (d : Dict) (k : String) (v : Yaml)
    (h : (d.map Prod.fst).Nodup) : ((dictSet d k v).map Prod.fst).Nodup := by
  induction d with
  | nil => simp [dictSet]
  | cons hd tl ih =>
    obtain ⟨a, b⟩ := hd
    simp only [List.map_cons, List.nodup_cons] at h
    obtain ⟨ha, htl⟩ := h
    simp only [dictSet]
    by_cases hak : a = k
    · subst hak
      simp only [beq_self_eq_true, if_true, List.map_cons, List.nodup_cons]
      exact ⟨ha, htl⟩
    · have hak' : (a == k) = false := by simp [hak]
      simp only [hak', Bool.false_eq_true, if_false, List.map_cons, List.nodup_cons]
      refine ⟨fun hmem => ?_, ih htl⟩
      rcases mem_keys_dictSet tl k a v hmem with h' | h'
      · exact ha h'
      · exact hak h'

theorem dictGet_update_not_mem (d other : Dict) (x : String)
    (h : x ∉ other.map Prod.fst) : dictGet (dictUpdate d other) x = dictGet d x := by
  induction other generalizing d with
  | nil => rfl
  | cons hd tl ih =>
    obtain ⟨k, v⟩ := hd
    simp only [List.map_cons, List.mem_cons, not_or] at h
    obtain ⟨hxk, hxtl⟩ := h
    show dictGet (dictUpdate (dictSet d k v) tl) x = dictGet d x
    rw [ih _ hxtl, dictGet_set_ne _ _ _ _ (fun e => hxk e.symm)]

theorem dictGet_update_of_nodup (d other : Dict) (x : String) (v : Yaml)
    (hnd : (other.map Prod.fst).Nodup) (h : dictGet other x = some v) :
    dictGet (dictUpdate d other) x = some v := by
  induction other generalizing d with
  | nil => simp [dictGet] at h
  | cons hd tl ih =>
    obtain ⟨k, w⟩ := hd
    simp only [List.map_cons, List.nodup_cons] at hnd
    obtain ⟨hk, htl⟩ := hnd
    show dictGet (dictUpdate (dictSet d k w) tl) x = some v
    simp only [dictGet] at h
    by_cases hkx : k = x
    · subst hkx
      simp only [beq_self_eq_true, if_true, Option.some.injEq] at h
      subst h
      rw [dictGet_update_not_mem _ _ _ hk, dictGet_set_self]
    · have : (k == x) = false := by simp [hkx]
      simp only [this, Bool.false_eq_true, if_false] at h
      exact ih _ htl h

/-! ### Mapping-rule loop lemmas -/

theorem applyColumnMapAux_get_not_mem (e : DirEntry) (cm : List (String × ColumnMapping))
    (d : Dict) (x : String) (h : x ∉ cm.map Prod.fst) :
    dictGet (applyColumnMapAux e cm d) x = dictGet d x := by
  induction cm generalizing d with
  | nil => rfl
  | cons hd tl ih =>
    obtain ⟨k, r⟩ := hd
    simp only [List.map_cons, List.mem_cons, not_or] at h
    obtain ⟨hxk, hxtl⟩ := h
    show dictGet (applyColumnMapAux e tl (dictSet d k (mappedValue r e))) x = dictGet d x
    rw [ih _ hxtl, dictGet_set_ne _ _ _ _ (fun hk => hxk hk.symm)]

theorem applyColumnMapAux_get_mem (e : DirEntry) (cm : List (String × ColumnMapping))
    (d : Dict) (x : String) (r : ColumnMapping)
    (hnd : (cm.map Prod.fst).Nodup) (hmem : (x, r) ∈ cm) :
    dictGet (applyColumnMapAux e cm d) x = some (mappedValue r e) := by
  induction cm generalizing d with
  | nil => cases hmem
  | cons hd tl ih =>
    obtain ⟨k, r'⟩ := hd
    simp only [List.map_cons, List.nodup_cons] at hnd
    obtain ⟨hk, htl⟩ := hnd
    rcases List.mem_cons.mp hmem with hhd | hmem'
    · obtain ⟨hk1, hk2⟩ := Prod.mk.injEq .. ▸ hhd
      subst hk1; subst hk2
      show dictGet (applyColumnMapAux e tl (dictSet d x (mappedValue r e))) x = _
      rw [applyColumnMapAux_get_not_mem e tl _ x hk, dictGet_set_self]
    · exact ih _ htl hmem'

theorem applyColumnMap_get_mem (e : DirEntry) (cm : List (String × ColumnMapping))
    (x : String) (r : ColumnMapping)
    (hnd : (cm.map Prod.fst).Nodup) (hmem : (x, r) ∈ cm) :
    dictGet (applyColumnMap cm e) x = some (mappedValue r e) :=
  applyColumnMapAux_get_mem e cm [] x r hnd hmem

/-! ### Foreign-key construction lemmas -/

theorem foreignForConstraint_error_shape (tn : String) (pairs : List FKPair)
    (kwargs fk : Dict) (err : ExtractError)
    (h : foreignForConstraint tn pairs kwargs fk = .error err) :
    ∃ c, err = .keyError c := by
  induction pairs generalizing fk with
  | nil => cases h
  | cons p rest ih =>
    simp only [foreignForConstraint] at h
    by_cases hp : (p.refTable == tn) = true
    · simp only [hp, if_true] at h
      cases hget : dictGet kwargs p.refCol with
      | some v => rw [hget] at h; exact ih _ h
      | none =>
        rw [hget] at h
        cases h
        exact ⟨p.refCol, rfl⟩
    · simp only [hp, Bool.false_eq_true, if_false] at h
      exact ih _ h

theorem foreignForConstraint_ok_preserve (tn : String) (pairs : List FKPair)
    (kwargs fk0 fk : Dict) (x : String)
    (h : foreignForConstraint tn pairs kwargs fk0 = .ok fk)
    (hx : x ∉ ((pairs.filter fun q => q.refTable == tn).map FKPair.localCol)) :
    dictGet fk x = dictGet fk0 x := by
  induction pairs generalizing fk0 with
  | nil => cases h; rfl
  | cons p rest ih =>
    simp only [foreignForConstraint] at h
    by_cases hp : (p.refTable == tn) = true
    · simp only [List.filter_cons, hp, if_true, List.map_cons, List.mem_cons, not_or] at hx
      obtain ⟨hx1, hx2⟩ := hx
      simp only [hp, if_true] at h
      cases hget : dictGet kwargs p.refCol with
      | some v =>
        rw [hget] at h
        rw [ih _ h hx2, dictGet_set_ne _ _ _ _ (fun e => hx1 e.symm)]
      | none => rw [hget] at h; cases h
    · simp only [List.filter_cons, hp, Bool.false_eq_true, if_false] at hx
      simp only [hp, Bool.false_eq_true, if_false] at h
      exact ih _ h hx

theorem foreignForConstraint_ok_keys_nodup (tn : String) (pairs : List FKPair)
    (kwargs fk0 fk : Dict)
    (h : foreignForConstraint tn pairs kwargs fk0 = .ok fk)
    (hnd : (fk0.map Prod.fst).Nodup) : (fk.map Prod.fst).Nodup := by
  induction pairs generalizing fk0 with
  | nil => cases h; exact hnd
  | cons p rest ih =>
    simp only [foreignForConstraint] at h
    by_cases hp : (p.refTable == tn) = true
    · simp only [hp, if_true] at h
      cases hget : dictGet kwargs p.refCol with
      | some v => rw [hget] at h; exact ih _ h (nodup_keys_dictSet _ _ _ hnd)
      | none => rw [hget] at h; cases h
    · simp only [hp, Bool.false_eq_true, if_false] at h
      exact ih _ h hnd

theorem foreignForConstraint_ok_get (tn : String) (pairs : List FKPair)
    (kwargs fk0 fk : Dict) (p : FKPair)
    (h : foreignForConstraint tn pairs kwargs fk0 = .ok fk)
    (hp : p ∈ pairs) (href : p.refTable = tn)
    (hnd : ((pairs.filter fun q => q.refTable == tn).map FKPair.localCol).Nodup) :
    ∃ v, dictGet kwargs p.refCol = some v ∧ dictGet fk p.localCol = some v := by
  induction pairs generalizing fk0 with
  | nil => cases hp
  | cons q rest ih =>
    simp only [foreignForConstraint] at h
    rcases List.mem_cons.mp hp with hq | hp'
    · subst hq
      have hq' : (p.refTable == tn) = true := by simp [href]
      simp only [hq', if_true] at h
      simp only [List.filter_cons, hq', if_true, List.map_cons, List.nodup_cons] at hnd
      obtain ⟨hnd1, _⟩ := hnd
      cases hget : dictGet kwargs p.refCol with
      | some v =>
        rw [hget] at h
        refine ⟨v, rfl, ?_⟩
        rw [foreignForConstraint_ok_preserve tn rest kwargs _ fk p.localCol h hnd1,
          dictGet_set_self]
      | none => rw [hget] at h; cases h
    · by_cases hq' : (q.refTable == tn) = true
      · simp only [hq', if_true] at h
        simp only [List.filter_cons, hq', if_true, List.map_cons, List.nodup_cons] at hnd
        obtain ⟨_, hnd2⟩ := hnd
        cases hget : dictGet kwargs q.refCol with
        | some v => rw [hget] at h; exact ih _ h hp' hnd2
        | none => rw [hget] at h; cases h
      · simp only [hq', Bool.false_eq_true, if_false] at h
        simp only [List.filter_cons, hq', Bool.false_eq_true, if_false] at hnd
        exact ih _ h hp' hnd

theorem foreignForConstraint_ok_refcol_some (tn : String) (pairs : List FKPair)
    (kwargs fk0 fk : Dict) (p : FKPair)
    (h : foreignForConstraint tn pairs kwargs fk0 = .ok fk)
    (hp : p ∈ pairs) (href : p.refTable = tn) :
    (dictGet kwargs p.refCol).isSome = true := by
  induction pairs generalizing fk0 with
  | nil => cases hp
  | cons q rest ih =>
    simp only [foreignForConstraint] at h
    rcases List.mem_cons.mp hp with hq | hp'
    · subst hq
      have hq' : (p.refTable == tn) = true := by simp [href]
      simp only [hq', if_true] at h
      cases hget : dictGet kwargs p.refCol with
      | some v => simp
      | none => rw [hget] at h; cases h
    · by_cases hq' : (q.refTable == tn) = true
      · simp only [hq', if_true] at h
        cases hget : dictGet kwargs q.refCol with
        | some v => rw [hget] at h; exact ih _ h hp'
        | none => rw [hget] at h; cases h
      · simp only [hq', Bool.false_eq_true, if_false] at h
        exact ih _ h hp'

theorem foreignForConstraint_append (tn : String) (a b : List FKPair) (kwargs fk0 : Dict) :
    foreignForConstraint tn (a ++ b) kwargs fk0 =
      match foreignForConstraint tn a kwargs fk0 with
      | .ok fk' => foreignForConstraint tn b kwargs fk'
      | .error e => .error e := by
  induction a generalizing fk0 with
  | nil => rfl
  | cons p rest ih =>
    simp only [List.cons_append, foreignForConstraint]
    by_cases hp : (p.refTable == tn) = true
    · simp only [hp, if_true]
      cases dictGet kwargs p.refCol with
      | some v => exact ih _
      | none => rfl
    · simp only [hp, Bool.false_eq_true, if_false]
      exact ih _

theorem buildForeignKwargsAux_eq_join (tn : String) (cs : List (List FKPair))
    (kwargs fk0 : Dict) :
    buildForeignKwargsAux tn cs kwargs fk0 = foreignForConstraint tn cs.flatten kwargs fk0 := by
  induction cs generalizing fk0 with
  | nil => rfl
  | cons c rest ih =>
    rw [List.flatten_cons, foreignForConstraint_append]
    simp only [buildForeignKwargsAux]
    cases h : foreignForConstraint tn c kwargs fk0 with
    | ok fk' => exact ih fk'
    | error e => rfl

theorem buildForeignKwargs_eq_join (tn : String) (cs : List (List FKPair)) (kwargs : Dict) :
    buildForeignKwargs tn cs kwargs = foreignForConstraint tn cs.flatten kwargs [] :=
  buildForeignKwargsAux_eq_join tn cs kwargs []

theorem buildForeignKwargs_ok_get (tn : String) (cs : List (List FKPair))
    (kwargs fk : Dict) (p : FKPair)
    (h : buildForeignKwargs tn cs kwargs = .ok fk)
    (hp : p ∈ cs.flatten) (href : p.refTable = tn)
    (hnd : ((cs.flatten.filter fun q => q.refTable == tn).map FKPair.localCol).Nodup) :
    ∃ v, dictGet kwargs p.refCol = some v ∧ dictGet fk p.localCol = some v := by
  rw [buildForeignKwargs_eq_join] at h
  exact foreignForConstraint_ok_get tn cs.flatten kwargs [] fk p h hp href hnd

theorem buildForeignKwargs_ok_refcol_some (tn : String) (cs : List (List FKPair))
    (kwargs fk : Dict) (p : FKPair)
    (h : buildForeignKwargs tn cs kwargs = .ok fk)
    (hp : p ∈ cs.flatten) (href : p.refTable = tn) :
    (dictGet kwargs p.refCol).isSome = true := by
  rw [buildForeignKwargs_eq_join] at h
  exact foreignForConstraint_ok_refcol_some tn cs.flatten kwargs [] fk p h hp href

theorem buildForeignKwargs_ok_keys_nodup (tn : String) (cs : List (List FKPair))
    (kwargs fk : Dict) (h : buildForeignKwargs tn cs kwargs = .ok fk) :
    (fk.map Prod.fst).Nodup := by
  rw [buildForeignKwargs_eq_join] at h
  exact foreignForConstraint_ok_keys_nodup tn cs.flatten kwargs [] fk h (by simp)

theorem buildForeignKwargs_error_shape (tn : String) (cs : List (List FKPair))
    (kwargs : Dict) (err : ExtractError)
    (h : buildForeignKwargs tn cs kwargs = .error err) : ∃ c, err = .keyError c := by
  rw [buildForeignKwargs_eq_join] at h
  exact foreignForConstraint_error_shape tn cs.flatten kwargs [] err h

/-! ### Child-record loop lemmas -/

theorem childRecordsLoop_sound (mm : ModelMap) (k : String) (elems : List Yaml)
    (fk : Dict) (r : Record) (hr : r ∈ (childRecordsLoop mm k elems fk).1) :
    ∃ kvs m, Yaml.map kvs ∈ elems ∧ lookupModel mm k = some m ∧
      r = Record.mk m (dictUpdate kvs fk) := by
  induction elems with
  | nil => cases hr
  | cons e rest ih =>
    cases e with
    | map kvs =>
      simp only [childRecordsLoop] at hr
      cases hm : lookupModel mm k with
      | some m =>
        rw [hm] at hr
        rcases List.mem_cons.mp hr with hr' | hr'
        · exact ⟨kvs, m, List.mem_cons_self _ _, rfl, hr'⟩
        · obtain ⟨kvs', m', hmem, hm', heq⟩ := ih hr'
          refine ⟨kvs', m', List.mem_cons_of_mem _ hmem, ?_, heq⟩
          rw [hm] at hm'
          exact hm' 
      | none => rw [hm] at hr; cases hr
    | null => cases hr
    | bool b => cases hr
    | int n => cases hr
    | str s => cases hr
    | seq xs => cases hr

/-! ### Aggregate-loader lemmas -/

theorem aggBuild_get_isSome_mono (kvs : Dict) (cols : List String) (d : Dict) (x : String)
    (h : (dictGet d x).isSome = true) : (dictGet (aggBuild kvs cols d) x).isSome = true := by
  induction cols generalizing d with
  | nil => exact h
  | cons c rest ih =>
    show (dictGet (aggBuild kvs rest (dictSet d c _)) x).isSome = true
    refine ih _ ?_
    rw [dictGet_set]
    by_cases hcx : c = x <;> simp [hcx, h]

theorem aggBuild_get_isSome (kvs : Dict) (cols : List String) (d : Dict) (c : String)
    (hc : c ∈ cols) : (dictGet (aggBuild kvs cols d) c).isSome = true := by
  induction cols generalizing d with
  | nil => cases hc
  | cons c0 rest ih =>
    rcases List.mem_cons.mp hc with hc' | hc'
    · subst hc'
      show (dictGet (aggBuild kvs rest (dictSet d c _)) c).isSome = true
      exact aggBuild_get_isSome_mono kvs rest _ c (by rw [dictGet_set_self]; rfl)
    · exact ih _ hc'

theorem aggLoop_sound (table : TableSchema) (model : String) (items : List Yaml)
    (r : Record) (hr : r ∈ (aggLoop table model items).1) :
    ∃ kvs, Yaml.map kvs ∈ items ∧ r = aggRecord table model kvs := by
  induction items with
  | nil => cases hr
  | cons e rest ih =>
    cases e with
    | map kvs =>
      simp only [aggLoop] at hr
      rcases List.mem_cons.mp hr with hr' | hr'
      · exact ⟨kvs, List.mem_cons_self _ _, hr'⟩
      · obtain ⟨kvs', hmem, heq⟩ := ih hr'
        exact ⟨kvs', List.mem_cons_of_mem _ hmem, heq⟩
    | null => cases hr
    | bool b => cases hr
    | int n => cases hr
    | str s => cases hr
    | seq xs => cases hr

/-! ### Items-loop lemmas -/

theorem processItems_get_not_mem (ctx : DirLoaderCtx) (kvs : List (String × Yaml))
    (kw : Dict) (x : String) (hx : x ∉ kvs.map Prod.fst) :
    dictGet (processItems ctx kvs kw).2.1 x = dictGet kw x := by
  induction kvs generalizing kw with
  | nil => rfl
  | cons hd tl ih =>
    obtain ⟨k, value⟩ := hd
    simp only [List.map_cons, List.mem_cons, not_or] at hx
    obtain ⟨hxk, hxtl⟩ := hx
    simp only [processItems]
    by_cases hc : ctx.table.columns.contains k = true
    · simp only [hc, if_true]
      rw [ih _ hxtl, dictGet_set_ne _ _ _ _ fun e => hxk e.symm]
    · simp only [hc, Bool.false_eq_true, if_false]
      cases hfind : ctx.meta.find k with
      | none => cases value <;> exact ih _ hxtl
      | some subTable =>
        cases value with
        | seq elems =>
          by_cases hmm2 : ctx.model_map.isEmpty = true
          · simp only [hmm2, if_true]
            exact ih _ hxtl
          · simp only [hmm2, Bool.false_eq_true, if_false]
            rcases hck : childRecordsForKey ctx k subTable elems kw with ⟨children, err⟩
            cases err with
            | some e => rfl
            | none => exact ih _ hxtl
        | null => exact ih _ hxtl
        | bool b => exact ih _ hxtl
        | int n => exact ih _ hxtl
        | str s => exact ih _ hxtl
        | map kvs0 => exact ih _ hxtl

theorem processItems_append (ctx : DirLoaderCtx) (pre rest : List (String × Yaml))
    (kw : Dict) (rs : List Record) (kw1 : Dict)
    (h : processItems ctx pre kw = (rs, kw1, none)) :
    processItems ctx (pre ++ rest) kw =
      (rs ++ (processItems ctx rest kw1).1,
        (processItems ctx rest kw1).2.1,
        (processItems ctx rest kw1).2.2) := by
  induction pre generalizing kw rs with
  | nil =>
    simp only [processItems] at h
    injection h with h1 h23
    injection h23 with h2 h3
    subst h1
    subst h2
    rfl
  | cons hd tl ih =>
    obtain ⟨k, value⟩ := hd
    simp only [List.cons_append, List.append_eq, processItems] at h ⊢
    by_cases hc : ctx.table.columns.contains k = true
    · simp only [hc, if_true] at h ⊢
      exact ih _ _ h
    · simp only [hc, Bool.false_eq_true, if_false] at h ⊢
      cases hfind : ctx.meta.find k with
      | none =>
        rw [hfind] at h
        cases value <;> exact ih _ _ h
      | some subTable =>
        rw [hfind] at h
        cases value with
        | seq elems =>
          by_cases hmm2 : ctx.model_map.isEmpty = true
          · simp only [hmm2, if_true] at h ⊢
            exact ih _ _ h
          · simp only [hmm2, Bool.false_eq_true, if_false] at h ⊢
            rcases hck : childRecordsForKey ctx k subTable elems kw with ⟨children, err⟩
            rw [hck] at h
            cases err with
            | some e =>
              exfalso
              injection h with h1 h23
              injection h23 with h2 h3
              cases h3
            | none =>
              rcases hres : processItems ctx tl kw with ⟨rs1, kw2, err2⟩
              rw [hres] at h
              simp only [Prod.mk.injEq] at h
              obtain ⟨h1, h2, h3⟩ := h
              subst h2
              subst h3
              subst h1
              rw [ih _ _ hres]
              simp [List.append_assoc]
        | null => exact ih _ _ h
        | bool b => exact ih _ _ h
        | int n => exact ih _ _ h
        | str s => exact ih _ _ h
        | map kvs0 => exact ih _ _ h

/-! ### Parse-shape characterization -/

theorem checkShapePy_iff (v : Yaml) :
    checkShapePy v = true ↔ (specShapeOk v = true ∨ v = Yaml.str "") := by
  cases v with
  | null => simp [checkShapePy, Yaml.pySeqElems, Yaml.isMapping, specShapeOk]
  | bool b => simp [checkShapePy, Yaml.pySeqElems, Yaml.isMapping, specShapeOk]
  | int n => simp [checkShapePy, Yaml.pySeqElems, Yaml.isMapping, specShapeOk]
  | seq xs => simp [checkShapePy, Yaml.pySeqElems, specShapeOk]
  | map kvs => simp [checkShapePy, Yaml.pySeqElems, Yaml.isMapping, specShapeOk]
  | str s =>
    obtain ⟨cs⟩ := s
    cases cs with
    | nil => simp [checkShapePy, Yaml.pySeqElems, specShapeOk]
    | cons c cs2 =>
      apply iff_of_false
      · simp [checkShapePy, Yaml.pySeqElems, Yaml.isMapping]
      · rintro (hbad | hbad)
        · simp [specShapeOk] at hbad
        · have hd := congrArg String.data (Yaml.str.inj hbad)
          simp at hd

theorem checkShapePy_false_iff (v : Yaml) :
    checkShapePy v = false ↔ (specShapeOk v = false ∧ v ≠ Yaml.str "") := by
  constructor
  · intro h
    constructor
    · cases hsp : specShapeOk v with
      | false => rfl
      | true =>
        have hc := (checkShapePy_iff v).mpr (Or.inl hsp)
        rw [h] at hc
        cases hc
    · intro he
      have hc := (checkShapePy_iff v).mpr (Or.inr he)
      rw [h] at hc
      cases hc
  · rintro ⟨h1, h2⟩
    cases hc : checkShapePy v with
    | false => rfl
    | true =>
      rcases (checkShapePy_iff v).mp hc with h | h
      · rw [h1] at h
        cases h
      · exact absurd h h2

theorem parse_yaml_file_ok_iff (f : FileData) :
    parse_yaml_file f = Except.ok f.content ↔
      (f.readable = true ∧ (specShapeOk f.content = true ∨ f.content = Yaml.str "")) := by
  rw [← checkShapePy_iff]
  unfold parse_yaml_file
  cases hr : f.readable with
  | false => simp
  | true =>
    cases hs : checkShapePy f.content with
    | true => simp
    | false => simp

theorem parse_yaml_file_invalid_iff (f : FileData) :
    parse_yaml_file f = Except.error LoadError.invalidYAML ↔
      (f.readable = true ∧ specShapeOk f.content = false ∧ f.content ≠ Yaml.str "") := by
  unfold parse_yaml_file
  cases hr : f.readable with
  | false => simp
  | true =>
    cases hs : checkShapePy f.content with
    | false =>
      obtain ⟨h1, h2⟩ := (checkShapePy_false_iff f.content).mp hs
      simp [h1, h2]
    | true =>
      have h2 : ¬(specShapeOk f.content = false ∧ f.content ≠ Yaml.str "") := by
        rw [← checkShapePy_false_iff, hs]
        simp
      simp [h2]

/-! ### Successful directory extraction has the children-then-parent shape -/

theorem extractEntry_eq_of_parse_error (ctx : DirLoaderCtx) (entry : DirEntry) (e : LoadError)
    (hp : parse_yaml_file entry.data = Except.error e) :
    extractEntry ctx entry = ([], some (ExtractError.loadError e)) := by
  unfold extractEntry
  rw [hp]

theorem extractEntry_eq_of_parse_nonmap (ctx : DirLoaderCtx) (entry : DirEntry) (values : Yaml)
    (hp : parse_yaml_file entry.data = Except.ok values) (hnm : values.isMapping = false) :
    extractEntry ctx entry = ([], some ExtractError.attrError) := by
  unfold extractEntry
  rw [hp]
  cases values <;> simp_all [Yaml.isMapping]

theorem extractEntry_eq_of_parse_map (ctx : DirLoaderCtx) (entry : DirEntry)
    (kvs : List (String × Yaml))
    (hp : parse_yaml_file entry.data = Except.ok (Yaml.map kvs)) :
    extractEntry ctx entry =
      (match processItems ctx kvs (applyColumnMap ctx.column_map entry) with
        | (rs, _, some e) => (rs, some e)
        | (rs, kw, none) => (rs ++ [Record.mk ctx.parentModel kw], none)) := by
  unfold extractEntry
  rw [hp]

theorem extractEntry_success (ctx : DirLoaderCtx) (entry : DirEntry) (recs : List Record)
    (h : extractEntry ctx entry = (recs, none)) :
    ∃ kvs, parse_yaml_file entry.data = Except.ok (Yaml.map kvs) ∧
      (processItems ctx kvs (applyColumnMap ctx.column_map entry)).2.2 = none ∧
      recs = (processItems ctx kvs (applyColumnMap ctx.column_map entry)).1 ++
        [Record.mk ctx.parentModel
          (processItems ctx kvs (applyColumnMap ctx.column_map entry)).2.1] := by
  cases hval : parse_yaml_file entry.data with
  | error e =>
    rw [extractEntry_eq_of_parse_error ctx entry e hval] at h
    simp at h
  | ok values =>
    cases values with
    | map kvs =>
      rw [extractEntry_eq_of_parse_map ctx entry kvs hval] at h
      rcases hres : processItems ctx kvs (applyColumnMap ctx.column_map entry) with ⟨rs1, kw2, err2⟩
      rw [hres] at h
      cases err2 with
      | some e => simp at h
      | none =>
        simp only [Prod.mk.injEq] at h
        obtain ⟨h1, _⟩ := h
        refine ⟨kvs, rfl, ?_, ?_⟩
        · rw [hres]
        · rw [hres]
          exact h1.symm
    | null =>
      rw [extractEntry_eq_of_parse_nonmap ctx entry _ hval (by simp [Yaml.isMapping])] at h
      simp at h
    | bool b =>
      rw [extractEntry_eq_of_parse_nonmap ctx entry _ hval (by simp [Yaml.isMapping])] at h
      simp at h
    | int n =>
      rw [extractEntry_eq_of_parse_nonmap ctx entry _ hval (by simp [Yaml.isMapping])] at h
      simp at h
    | str s2 =>
      rw [extractEntry_eq_of_parse_nonmap ctx entry _ hval (by simp [Yaml.isMapping])] at h
      simp at h
    | seq xs =>
      rw [extractEntry_eq_of_parse_nonmap ctx entry _ hval (by simp [Yaml.isMapping])] at h
      simp at h

theorem singleFile_extract_eq_of_parse_error (table : TableSchema) (model : String)
    (file : FileData) (e : LoadError) (hp : parse_yaml_file file = Except.error e) :
    YAMLSingleFileLoader.extract_records table model file =
      ([], some (ExtractError.loadError e)) := by
  unfold YAMLSingleFileLoader.extract_records
  rw [hp]

theorem singleFile_extract_eq_of_parse (table : TableSchema) (model : String)
    (file : FileData) (values : Yaml) (hp : parse_yaml_file file = Except.ok values) :
    YAMLSingleFileLoader.extract_records table model file =
      (match values.pyIter with
        | some items => aggLoop table model items
        | none => ([], some ExtractError.typeError)) := by
  unfold YAMLSingleFileLoader.extract_records
  rw [hp]

/-! ### Claims -/

/-- C1, counterexample: the claim says a rule-mapped column keeps its derived
value even when the document contains that key.  In the code the document
loop runs after the mapping-rule loop and overwrites `kwargs[k]`: for file
`foo.yml` with column `slug` mapped to `FILE_NAME` and document
`slug: bar`, the extracted record carries `"bar"`, not the stem `"foo"`. -/
theorem C1_counterexample :
    extractEntry
        ⟨⟨"widgets", ["slug"], []⟩, ⟨[]⟩, [("slug", ColumnMapping.FILE_NAME)], [], "Widget"⟩
        ⟨true, "foo.yml", "widgets", ⟨true, Yaml.map [("slug", Yaml.str "bar")]⟩⟩ =
      ([Record.mk "Widget" [("slug", Yaml.str "bar")]], none)
    ∧ pathStem "foo.yml" = "foo"
    ∧ ("bar" == "foo") = false :=
  ⟨rfl, rfl, rfl⟩

/-- C1, amended: a mapping rule sets the derived value first, but a document
value under the same key overwrites it; the derived value is the record's
final value exactly when the parsed document does not contain that key.  For
every successful per-file extraction, a rule-mapped column absent from the
document keys ends with its derived value in the parent record. -/
theorem C1_amended (ctx : DirLoaderCtx) (entry : DirEntry) (kvs : List (String × Yaml))
    (recs : List Record) (k : String) (r : ColumnMapping)
    (hparse : parse_yaml_file entry.data = Except.ok (Yaml.map kvs))
    (hrun : extractEntry ctx entry = (recs, none))
    (hmem : (k, r) ∈ ctx.column_map)
    (hnd : (ctx.column_map.map Prod.fst).Nodup)
    (hnotdoc : k ∉ kvs.map Prod.fst) :
    ∃ kw, recs.getLast? = some (Record.mk ctx.parentModel kw) ∧
      dictGet kw k = some (mappedValue r entry) := by
  obtain ⟨kvs2, hp2, herr, hrecs⟩ := extractEntry_success ctx entry recs hrun
  rw [hparse] at hp2
  have hk := Yaml.map.inj (Except.ok.inj hp2)
  subst hk
  refine ⟨(processItems ctx kvs (applyColumnMap ctx.column_map entry)).2.1, ?_, ?_⟩
  · rw [hrecs, List.getLast?_concat]
  · rw [processItems_get_not_mem ctx kvs _ k hnotdoc,
      applyColumnMap_get_mem entry ctx.column_map k r hnd hmem]

/-- C1, witness: concrete instance of the amended claim — `slug` mapped to
`FILE_NAME` for file `bar.yml`, with `slug` absent from the document, gets
the stem `"bar"` in the parent record. -/
theorem C1_witness :
    ∃ kw, ([Record.mk "Widget" [("slug", Yaml.str "bar"), ("name", Yaml.str "N")]] :
        List Record).getLast? = some (Record.mk "Widget" kw) ∧
      dictGet kw "slug" = some (mappedValue ColumnMapping.FILE_NAME
        ⟨true, "bar.yml", "widgets", ⟨true, Yaml.map [("name", Yaml.str "N")]⟩⟩) :=
  C1_amended
    ⟨⟨"widgets", ["slug", "name"], []⟩, ⟨[]⟩, [("slug", ColumnMapping.FILE_NAME)], [], "Widget"⟩
    ⟨true, "bar.yml", "widgets", ⟨true, Yaml.map [("name", Yaml.str "N")]⟩⟩
    [("name", Yaml.str "N")]
    [Record.mk "Widget" [("slug", Yaml.str "bar"), ("name", Yaml.str "N")]]
    "slug" ColumnMapping.FILE_NAME rfl rfl (by decide) (by decide) (by decide)

/-- C2, counterexample: for a nonexistent table data directory (its recursive
glob is empty and `_all.yml` does not exist — the well-formedness condition),
the claim says the selector returns no loader; in fact the directory
strategy's validation loop runs over zero files, raises nothing, and
`loader_for` returns a directory loader. -/
theorem C2_counterexample :
    TableDirFS.wf ⟨false, [], false⟩ ∧
    loader_for ⟨false, [], false⟩ = some LoaderKind.directory :=
  ⟨fun _ => ⟨rfl, rfl⟩, rfl⟩

/-- C2, amended: when neither strategy's validation succeeds, the selector
returns no loader, as a normal value rather than a raised error (the
`InvalidLoaderError` of each candidate is caught inside `loader_for`).  A
nonexistent data directory, however, is not such a case: the directory
strategy validates vacuously there. -/
theorem C2_amended (fs : TableDirFS)
    (h1 : YAMLSingleFileLoader.validate fs = false)
    (h2 : YAMLDirectoryLoader.validate fs = false) :
    loader_for fs = none := by
  simp [loader_for, h1, h2]

/-- C2, witness: a directory containing a non-YAML regular file and no
`_all.yml` fails both validations, and the selector returns nothing. -/
theorem C2_witness :
    loader_for ⟨true, [⟨true, "notes.txt", "widgets", ⟨true, Yaml.null⟩⟩], false⟩ = none :=
  C2_amended _ rfl rfl

/-- C3, counterexample: the claim says every record of either strategy
carries a key for every declared column.  A directory-strategy file
`a.yml` holding only `name: A` for a table with columns `name, age`
produces a record with no `age` key at all. -/
theorem C3_counterexample :
    extractEntry ⟨⟨"widgets", ["name", "age"], []⟩, ⟨[]⟩, [], [], "Widget"⟩
        ⟨true, "a.yml", "widgets", ⟨true, Yaml.map [("name", Yaml.str "A")]⟩⟩ =
      ([Record.mk "Widget" [("name", Yaml.str "A")]], none)
    ∧ dictGet [("name", Yaml.str "A")] "age" = none
    ∧ "age" ∈ ["name", "age"] :=
  ⟨rfl, rfl, by decide⟩

/-- C3, amended: totality over the declared columns holds for the aggregate
strategy: every record it yields has a binding for every declared column
(the value is null when the entry lacks the key).  Directory-strategy
records only bind the rule-mapped keys and the document keys that match
declared columns. -/
theorem C3_amended (table : TableSchema) (model : String) (file : FileData)
    (r : Record) (c : String)
    (hr : r ∈ (YAMLSingleFileLoader.extract_records table model file).1)
    (hc : c ∈ table.columns) :
    (dictGet r.kwargs c).isSome = true := by
  cases hval : parse_yaml_file file with
  | error e =>
    rw [singleFile_extract_eq_of_parse_error table model file e hval] at hr
    simp at hr
  | ok values =>
    rw [singleFile_extract_eq_of_parse table model file values hval] at hr
    cases hit : values.pyIter with
    | none =>
      rw [hit] at hr
      simp at hr
    | some items =>
      rw [hit] at hr
      obtain ⟨kvs, _, heq⟩ := aggLoop_sound table model items r hr
      subst heq
      exact aggBuild_get_isSome kvs table.columns [] c hc

/-- C3, witness: an aggregate file with one entry lacking `email` still
produces a record binding `email` (to null), so the lookup succeeds. -/
theorem C3_witness :
    (dictGet (Record.mk "Author" [("name", Yaml.str "A"), ("email", Yaml.null)]).kwargs
      "email").isSome = true :=
  C3_amended ⟨"authors", ["name", "email"], []⟩ "Author"
    ⟨true, Yaml.seq [Yaml.map [("name", Yaml.str "A")]]⟩
    (Record.mk "Author" [("name", Yaml.str "A"), ("email", Yaml.null)]) "email"
    (List.mem_singleton_self _) (by decide)

/-- C4: for every child record produced by nested expansion and every
foreign-key pair of the child table referencing the parent table, the child
record binds the local foreign-key column to exactly the parent's current
value for the referenced column, and never leaves it unset (the
`sub_kwargs.update(foreign_kwargs)` runs after the child entry's own keys, so
the copied value wins even over a child-supplied one).  The no-duplicate
hypothesis rules out two parent-referencing pairs writing the same local
column, which would make "the" referenced column ambiguous. -/
theorem C4_theorem (ctx : DirLoaderCtx) (k : String) (subTable : TableSchema)
    (elems : List Yaml) (kwargs : Dict) (r : Record) (p : FKPair)
    (hr : r ∈ (childRecordsForKey ctx k subTable elems kwargs).1)
    (hp : p ∈ subTable.fkConstraints.flatten)
    (href : p.refTable = ctx.table.name)
    (hnd : ((subTable.fkConstraints.flatten.filter fun q =>
      q.refTable == ctx.table.name).map FKPair.localCol).Nodup) :
    ∃ v, dictGet kwargs p.refCol = some v ∧ dictGet r.kwargs p.localCol = some v := by
  unfold childRecordsForKey at hr
  cases hb : buildForeignKwargs ctx.table.name subTable.fkConstraints kwargs with
  | error e =>
    rw [hb] at hr
    simp at hr
  | ok fk =>
    rw [hb] at hr
    obtain ⟨v, hv1, hv2⟩ := buildForeignKwargs_ok_get ctx.table.name subTable.fkConstraints
      kwargs fk p hb hp href hnd
    obtain ⟨kvs, m, _, _, heq⟩ := childRecordsLoop_sound ctx.model_map k elems fk r hr
    subst heq
    exact ⟨v, hv1, dictGet_update_of_nodup kvs fk p.localCol v
      (buildForeignKwargs_ok_keys_nodup _ _ _ _ hb) hv2⟩

/-- C4, witness: the spec's posts/comments scenario — with the parent's `id`
currently 5, the embedded comment gets `post_id = 5`. -/
theorem C4_witness :
    ∃ v, dictGet [("id", Yaml.int 5), ("title", Yaml.str "T")] "id" = some v ∧
      dictGet [("body", Yaml.str "hi"), ("post_id", Yaml.int 5)] "post_id" = some v :=
  C4_theorem
    ⟨⟨"posts", ["id", "title"], []⟩,
      ⟨[⟨"posts", ["id", "title"], []⟩, ⟨"comments", ["body", "post_id"],
        [[⟨"post_id", "posts", "id"⟩]]⟩]⟩,
      [], [("posts", ("Post", [])), ("comments", ("Comment", []))], "Post"⟩
    "comments"
    ⟨"comments", ["body", "post_id"], [[⟨"post_id", "posts", "id"⟩]]⟩
    [Yaml.map [("body", Yaml.str "hi")]]
    [("id", Yaml.int 5), ("title", Yaml.str "T")]
    (Record.mk "Comment" [("body", Yaml.str "hi"), ("post_id", Yaml.int 5)])
    ⟨"post_id", "posts", "id"⟩
    (List.mem_singleton_self _) (List.mem_singleton_self _) rfl (by decide)

/-- C5, counterexample: the claim says child records use the same
column-value-assignment rule as parents — child mapping rules applied and
compound values canonicalized.  In the code a child record is built from the
raw child entry updated with the foreign-key values only: the `Comment`
model below is configured with a `FILE_NAME` rule for `slug`, yet the child
record has no `slug` key, and its list-valued `tags` stays a raw list
instead of a serialized string. -/
theorem C5_counterexample :
    extractEntry
        ⟨⟨"posts", ["id", "title"], []⟩,
          ⟨[⟨"posts", ["id", "title"], []⟩, ⟨"comments", ["body", "post_id"],
            [[⟨"post_id", "posts", "id"⟩]]⟩]⟩,
          [], [("posts", ("Post", [])),
            ("comments", ("Comment", [("slug", ColumnMapping.FILE_NAME)]))], "Post"⟩
        ⟨true, "p1.yml", "posts",
          ⟨true, Yaml.map [("id", Yaml.int 1),
            ("comments", Yaml.seq [Yaml.map [("tags", Yaml.seq [Yaml.int 1, Yaml.int 2])]])]⟩⟩ =
      ([Record.mk "Comment" [("tags", Yaml.seq [Yaml.int 1, Yaml.int 2]), ("post_id", Yaml.int 1)],
        Record.mk "Post" [("id", Yaml.int 1)]], none)
    ∧ Yaml.isStr (Yaml.seq [Yaml.int 1, Yaml.int 2]) = false
    ∧ dictGet [("tags", Yaml.seq [Yaml.int 1, Yaml.int 2]), ("post_id", Yaml.int 1)] "slug" = none :=
  ⟨rfl, rfl, rfl⟩

/-- C5, amended: every child record produced by nested expansion is built
from the raw child-entry mapping updated with the copied foreign-key values;
no column-mapping rule of the child table is applied and no compound value is
canonicalized. -/
theorem C5_amended (mm : ModelMap) (k : String) (elems : List Yaml) (fk : Dict) (r : Record)
    (hr : r ∈ (childRecordsLoop mm k elems fk).1) :
    ∃ kvs m, Yaml.map kvs ∈ elems ∧ lookupModel mm k = some m ∧
      r = Record.mk m (dictUpdate kvs fk) :=
  childRecordsLoop_sound mm k elems fk r hr

/-- C5, witness: a concrete child record is exactly its raw entry plus the
foreign-key binding. -/
theorem C5_witness :
    ∃ kvs m, Yaml.map kvs ∈ [Yaml.map [("x", Yaml.int 1)]] ∧
      lookupModel [("comments", ("Comment", []))] "comments" = some m ∧
      Record.mk "Comment" [("x", Yaml.int 1), ("post_id", Yaml.int 9)] =
        Record.mk m (dictUpdate kvs [("post_id", Yaml.int 9)]) :=
  C5_amended [("comments", ("Comment", []))] "comments"
    [Yaml.map [("x", Yaml.int 1)]] [("post_id", Yaml.int 9)]
    (Record.mk "Comment" [("x", Yaml.int 1), ("post_id", Yaml.int 9)])
    (List.mem_singleton_self _)

/-- C6: directory-strategy validation fails closed — one regular file
anywhere in the glob results whose name ends in none of the recognized
extensions makes the whole validation fail, whatever the other entries
are. -/
theorem C6_theorem (fs : TableDirFS) (e : DirEntry)
    (he : e ∈ fs.globEntries) (hf : e.is_file = true)
    (hx : (YAMLDirectoryLoader.extensions.any fun ext => strEndsWithPy e.name ext) = false) :
    YAMLDirectoryLoader.validate fs = false := by
  unfold YAMLDirectoryLoader.validate
  cases hv : fs.globEntries.all fun e2 =>
      !e2.is_file || YAMLDirectoryLoader.extensions.any fun ext => strEndsWithPy e2.name ext with
  | false => rfl
  | true =>
    exfalso
    have h2 := List.all_eq_true.mp hv e he
    simp [hf, hx] at h2

/-- C6, witness: a directory with one valid YAML file and one stray
`README.md` fails validation as a whole. -/
theorem C6_witness :
    YAMLDirectoryLoader.validate
      ⟨true, [⟨true, "README.md", "widgets", ⟨true, Yaml.null⟩⟩,
        ⟨true, "a.yml", "widgets", ⟨true, Yaml.map []⟩⟩], false⟩ = false :=
  C6_theorem _ ⟨true, "README.md", "widgets", ⟨true, Yaml.null⟩⟩
    (List.mem_cons_self _ _) rfl rfl

/-- C7: the aggregate-file strategy is selected exactly when `_all.yml`
exists as a regular file directly under the table directory — whatever the
other directory contents — and, being tried first, it takes precedence over
the directory strategy. -/
theorem C7_theorem (fs : TableDirFS) :
    loader_for fs = some LoaderKind.singleFile ↔ fs.allYmlIsFile = true := by
  unfold loader_for YAMLSingleFileLoader.validate
  by_cases h1 : fs.allYmlIsFile = true
  · simp [h1]
  · by_cases h2 : YAMLDirectoryLoader.validate fs = true
    · simp [h1, h2]
    · simp [h1, h2]

/-- C7, witness: with `_all.yml` present and another file alongside it, the
selector picks the aggregate strategy. -/
theorem C7_witness :
    loader_for ⟨true, [⟨true, "extra.yml", "widgets", ⟨true, Yaml.map []⟩⟩], true⟩ =
      some LoaderKind.singleFile :=
  (C7_theorem _).mpr rfl

/-- C8, counterexample: the claim says InvalidFormat is raised exactly when
the top-level value is neither a sequence of mappings nor a mapping.  A
document parsing to the empty string is neither (it is a scalar), yet the
code accepts it: Python strings are `Sequence` instances, and the empty
string has no element to flunk the per-element mapping check. -/
theorem C8_counterexample :
    parse_yaml_file ⟨true, Yaml.str ""⟩ = Except.ok (Yaml.str "") ∧
    specShapeOk (Yaml.str "") = false :=
  ⟨rfl, rfl⟩

/-- C8, amended: for a readable file, parsing returns the value unchanged
exactly when it is a mapping, a sequence of mappings, or the empty string
(accepted through Python's string-as-Sequence loophole), and fails with the
InvalidFormat error exactly otherwise. -/
theorem C8_amended (f : FileData) :
    (parse_yaml_file f = Except.ok f.content ↔
      (f.readable = true ∧ (specShapeOk f.content = true ∨ f.content = Yaml.str ""))) ∧
    (parse_yaml_file f = Except.error LoadError.invalidYAML ↔
      (f.readable = true ∧ specShapeOk f.content = false ∧ f.content ≠ Yaml.str "")) :=
  ⟨parse_yaml_file_ok_iff f, parse_yaml_file_invalid_iff f⟩

/-- C8, witness: a readable single-mapping document is returned unchanged. -/
theorem C8_witness :
    parse_yaml_file ⟨true, Yaml.map [("a", Yaml.int 1)]⟩ =
      Except.ok (Yaml.map [("a", Yaml.int 1)]) :=
  (C8_amended ⟨true, Yaml.map [("a", Yaml.int 1)]⟩).1.mpr ⟨rfl, Or.inl rfl⟩

/-- C9: for every file whose extraction succeeds, the yielded records are the
child records of the items loop followed by the parent record, which comes
last; the order is the deterministic value of the extraction function. -/
theorem C9_theorem (ctx : DirLoaderCtx) (entry : DirEntry) (recs : List Record)
    (h : extractEntry ctx entry = (recs, none)) :
    ∃ kvs kwargs, parse_yaml_file entry.data = Except.ok (Yaml.map kvs) ∧
      recs = (processItems ctx kvs (applyColumnMap ctx.column_map entry)).1 ++
        [Record.mk ctx.parentModel kwargs] := by
  obtain ⟨kvs, h1, _, h3⟩ := extractEntry_success ctx entry recs h
  exact ⟨kvs, _, h1, h3⟩

/-- C9, witness: a post with two embedded comments yields both comments
first and the post record last. -/
theorem C9_witness :
    ∃ kvs kwargs,
      parse_yaml_file ⟨true, Yaml.map [("id", Yaml.int 7),
          ("comments", Yaml.seq [Yaml.map [("body", Yaml.str "a")],
            Yaml.map [("body", Yaml.str "b")]])]⟩ = Except.ok (Yaml.map kvs) ∧
      [Record.mk "Comment" [("body", Yaml.str "a"), ("post_id", Yaml.int 7)],
        Record.mk "Comment" [("body", Yaml.str "b"), ("post_id", Yaml.int 7)],
        Record.mk "Post" [("id", Yaml.int 7)]] =
        (processItems
          ⟨⟨"posts", ["id"], []⟩,
            ⟨[⟨"posts", ["id"], []⟩, ⟨"comments", ["body", "post_id"],
              [[⟨"post_id", "posts", "id"⟩]]⟩]⟩,
            [], [("posts", ("Post", [])), ("comments", ("Comment", []))], "Post"⟩
          kvs
          (applyColumnMap []
            ⟨true, "p2.yml", "posts",
              ⟨true, Yaml.map [("id", Yaml.int 7),
                ("comments", Yaml.seq [Yaml.map [("body", Yaml.str "a")],
                  Yaml.map [("body", Yaml.str "b")]])]⟩⟩)).1 ++
          [Record.mk "Post" kwargs] :=
  C9_theorem
    ⟨⟨"posts", ["id"], []⟩,
      ⟨[⟨"posts", ["id"], []⟩, ⟨"comments", ["body", "post_id"],
        [[⟨"post_id", "posts", "id"⟩]]⟩]⟩,
      [], [("posts", ("Post", [])), ("comments", ("Comment", []))], "Post"⟩
    ⟨true, "p2.yml", "posts",
      ⟨true, Yaml.map [("id", Yaml.int 7),
        ("comments", Yaml.seq [Yaml.map [("body", Yaml.str "a")],
          Yaml.map [("body", Yaml.str "b")]])]⟩⟩
    [Record.mk "Comment" [("body", Yaml.str "a"), ("post_id", Yaml.int 7)],
      Record.mk "Comment" [("body", Yaml.str "b"), ("post_id", Yaml.int 7)],
      Record.mk "Post" [("id", Yaml.int 7)]]
    rfl

/-- C10: nested expansion reads the parent's foreign-key source value from
the partially built parent kwargs; when a child table's constraint
references a parent column that has no value yet at the moment the embedded
sequence is processed (no mapping rule and the key only occurs later in the
document, or not at all), the `kwargs[...]` subscript raises a `KeyError`
and no child record for that key is yielded. -/
theorem C10_theorem (ctx : DirLoaderCtx) (entry : DirEntry) (pre post : List (String × Yaml))
    (k : String) (elems : List Yaml) (subTable : TableSchema) (p : FKPair)
    (recs : List Record) (kw1 : Dict)
    (hparse : parse_yaml_file entry.data =
      Except.ok (Yaml.map (pre ++ (k, Yaml.seq elems) :: post)))
    (hpre : processItems ctx pre (applyColumnMap ctx.column_map entry) = (recs, kw1, none))
    (hkcol : ctx.table.columns.contains k = false)
    (hsub : ctx.meta.find k = some subTable)
    (hmm2 : ctx.model_map.isEmpty = false)
    (hp : p ∈ subTable.fkConstraints.flatten)
    (href : p.refTable = ctx.table.name)
    (hmiss : dictGet kw1 p.refCol = none) :
    ∃ c, extractEntry ctx entry = (recs, some (ExtractError.keyError c)) := by
  have herr : ∃ c, buildForeignKwargs ctx.table.name subTable.fkConstraints kw1 =
      .error (.keyError c) := by
    cases hb : buildForeignKwargs ctx.table.name subTable.fkConstraints kw1 with
    | ok fk =>
      have hsome := buildForeignKwargs_ok_refcol_some ctx.table.name subTable.fkConstraints
        kw1 fk p hb hp href
      rw [hmiss] at hsome
      simp at hsome
    | error e =>
      obtain ⟨c, hc⟩ := buildForeignKwargs_error_shape _ _ _ _ hb
      subst hc
      exact ⟨c, rfl⟩
  obtain ⟨c, hb⟩ := herr
  have hchild : childRecordsForKey ctx k subTable elems kw1 =
      ([], some (ExtractError.keyError c)) := by
    unfold childRecordsForKey
    rw [hb]
  have hstep : processItems ctx ((k, Yaml.seq elems) :: post) kw1 =
      ([], kw1, some (ExtractError.keyError c)) := by
    have hkmem : ¬(k ∈ ctx.table.columns) := by
      simpa using hkcol
    simp [processItems, hkcol, hkmem, hsub, hmm2, hchild]
  have hall := processItems_append ctx pre ((k, Yaml.seq elems) :: post)
    (applyColumnMap ctx.column_map entry) recs kw1 hpre
  rw [hstep] at hall
  refine ⟨c, ?_⟩
  rw [extractEntry_eq_of_parse_map ctx entry _ hparse, hall]
  simp

/-- C10, witness: the comments sequence appears before the `id` key, so the
parent's `id` is not yet assigned and extraction stops with a `KeyError`
instead of yielding the comment. -/
theorem C10_witness :
    ∃ c, extractEntry
        ⟨⟨"posts", ["id", "title"], []⟩,
          ⟨[⟨"posts", ["id", "title"], []⟩, ⟨"comments", ["body", "post_id"],
            [[⟨"post_id", "posts", "id"⟩]]⟩]⟩,
          [], [("posts", ("Post", [])), ("comments", ("Comment", []))], "Post"⟩
        ⟨true, "p1.yml", "posts",
          ⟨true, Yaml.map [("comments", Yaml.seq [Yaml.map [("body", Yaml.str "hi")]]),
            ("id", Yaml.int 5)]⟩⟩ =
      ([], some (ExtractError.keyError c)) :=
  C10_theorem
    ⟨⟨"posts", ["id", "title"], []⟩,
      ⟨[⟨"posts", ["id", "title"], []⟩, ⟨"comments", ["body", "post_id"],
        [[⟨"post_id", "posts", "id"⟩]]⟩]⟩,
      [], [("posts", ("Post", [])), ("comments", ("Comment", []))], "Post"⟩
    ⟨true, "p1.yml", "posts",
      ⟨true, Yaml.map [("comments", Yaml.seq [Yaml.map [("body", Yaml.str "hi")]]),
        ("id", Yaml.int 5)]⟩⟩
    [] [("id", Yaml.int 5)] "comments" [Yaml.map [("body", Yaml.str "hi")]]
    ⟨"comments", ["body", "post_id"], [[⟨"post_id", "posts", "id"⟩]]⟩
    ⟨"post_id", "posts", "id"⟩ [] []
    rfl rfl rfl rfl rfl (List.mem_singleton_self _) rfl rfl
